import Mathlib

/-!
Formal model of the neuron threshold-network simulator in `q1.py`.

The source simulates a discrete-time binary threshold network.  We embed the
program shallowly:

* Python floats (weights, thresholds) are modelled as exact rationals `ℚ`.
* Python ints (ids, states, step counts) are modelled as `Int` (indices as
  `Nat` after the `a - 1` conversion the source performs).
* Python lists become `List`; in-place mutation becomes explicit new lists.
* Python code that can raise becomes `Option`-valued "checked" definitions;
  the main definitions use total `getD`/`set` access, which agrees with the
  source whenever edge endpoints are valid 1-based ids (the checked variants
  make that agreement precise).
-/

/-- A neuron record, `{"id": ..., "state": ..., "threshold": ...}`:
stable 1-based id, integer activation state, rational threshold. -/
structure Neuron where
  id : Nat
  state : Int
  threshold : ℚ
deriving DecidableEq

instance : Inhabited Neuron := ⟨⟨0, 0, 0⟩⟩

/-- An edge `(a, b, w)`: 1-based source id, 1-based destination id, weight. -/
abbrev Edge := Int × Int × ℚ

/-- The 0-based index the source computes from a 1-based id (`a - 1`).
For valid ids (`1 ≤ a`) this is exactly the Python index. -/
def idx (a : Int) : Nat := (a - 1).toNat

/-- The list of states of a neuron list: `[n["state"] for n in neurons]`. -/
def statesOf (ns : List Neuron) : List Int := ns.map (fun n => n.state)

/-- Phase 1 of `steps` (q1.py lines 220-226): fold over the connections,
adding `w` to `received[b-1]` whenever neuron `a-1` is currently active. -/
def receivedBaseline (ns : List Neuron) (cs : List Edge) : List ℚ :=
  cs.foldl
    (fun received e =>
      if (ns.getD (idx e.1) default).state = 1 then
        received.set (idx e.2.1) (received.getD (idx e.2.1) 0 + e.2.2)
      else received)
    (List.replicate ns.length 0)

/-- Phase 2 of `steps` / `step_fast`: `new_states[i] = 1 if received[i] >=
neurons[i]["threshold"] else 0` (non-strict comparison). -/
def new_states (ns : List Neuron) (received : List ℚ) : List Int :=
  (List.range ns.length).map
    (fun i => if received.getD i 0 ≥ (ns.getD i default).threshold then 1 else 0)

/-- Phase 3 of `steps` / `step_fast`: commit the new states onto the neurons
(`neurons[i]["state"] = new_states[i]`). -/
def commitStates (ns : List Neuron) (st : List Int) : List Neuron :=
  (List.range ns.length).map
    (fun i => { ns.getD i default with state := st.getD i 0 })

/-- One baseline tick: the source function `steps(neurons, connections)`
(the `debug` parameter only prints and is omitted). -/
def steps (ns : List Neuron) (cs : List Edge) : List Neuron :=
  commitStates ns (new_states ns (receivedBaseline ns cs))

/-- `defaultdict` update `out_edges[u][v] += w`, on an insertion-ordered
association list (Python dicts preserve insertion order of keys). -/
def addEdge (l : List (Nat × ℚ)) (v : Nat) (w : ℚ) : List (Nat × ℚ) :=
  match l with
  | [] => [(v, w)]
  | p :: rest => if p.1 = v then (p.1, p.2 + w) :: rest else p :: addEdge rest v w

/-- The source function `build_out_edges(M, connections)`: per-source
aggregated adjacency, summing duplicate `(source, destination)` weights. -/
def build_out_edges (M : Nat) (cs : List Edge) : List (List (Nat × ℚ)) :=
  cs.foldl
    (fun out e => out.set (idx e.1) (addEdge (out.getD (idx e.1) []) (idx e.2.1) e.2.2))
    (List.replicate M [])

/-- Phase 1 of `step_fast` (q1.py lines 104-111): for each active neuron `u`,
add `w` to `received[v]` for every `(v, w)` in `out_edges[u]`. -/
def receivedFast (ns : List Neuron) (out_edges : List (List (Nat × ℚ))) : List ℚ :=
  (List.range ns.length).foldl
    (fun received u =>
      if (ns.getD u default).state = 1 then
        (out_edges.getD u []).foldl
          (fun acc vw => acc.set vw.1 (acc.getD vw.1 0 + vw.2)) received
      else received)
    (List.replicate ns.length 0)

/-- One fast tick: the source function `step_fast(neurons, out_edges)`. -/
def step_fast (ns : List Neuron) (out_edges : List (List (Nat × ℚ))) : List Neuron :=
  commitStates ns (new_states ns (receivedFast ns out_edges))

/-- The tick loop of `simulate_N`: apply `steps` for the remaining tick count. -/
def simNTicks (cs : List Edge) : Nat → List Neuron → List Neuron
  | 0, ns => ns
  | Nat.succ k, ns => simNTicks cs k (steps ns cs)

/-- `simulate_N(neurons, connections, N)` with snapshots disabled
(`debug_every=None`, the value every caller in the source passes):
run `steps` N times and return the final state list.  The variant with
the `debug_every` parameter is `simulate_N_dbg` below. -/
def simulate_N (ns : List Neuron) (cs : List Edge) (N : Nat) : List Int :=
  statesOf (simNTicks cs N ns)

/-- The tick loop of `simulate_fast`: apply `step_fast` with a fixed
adjacency for the remaining tick count. -/
def simFastTicks (oe : List (List (Nat × ℚ))) : Nat → List Neuron → List Neuron
  | 0, ns => ns
  | Nat.succ k, ns => simFastTicks oe k (step_fast ns oe)

/-- `simulate_fast(neurons, connections, N)` with snapshots disabled:
build `out_edges` once, then run `step_fast` N times. -/
def simulate_fast (ns : List Neuron) (cs : List Edge) (N : Nat) : List Int :=
  statesOf (simFastTicks (build_out_edges ns.length cs) N ns)

/-- The simulation loop with the periodic debug snapshot, as written in
`simulate_N` / `simulate_fast` (q1.py lines 91-94 and 259-263): at tick `t`
run the stepper, and when `debug_every` is not `None`, evaluate
`t % debug_every == 0` — a `ZeroDivisionError` when `debug_every = 0`,
modelled as `none` — and record a snapshot of the state vector when it holds.
Returns the final neurons together with the list of emitted snapshots. -/
def simLoopDbg (stepF : List Neuron → List Neuron) (d : Option Int) :
    Nat → Nat → List Neuron → Option (List Neuron × List (List Int))
  | _, 0, ns => some (ns, [])
  | t, Nat.succ k, ns =>
    let ns2 := stepF ns
    match d with
    | none => simLoopDbg stepF d (t + 1) k ns2
    | some dv =>
      if dv = 0 then none
      else
        (simLoopDbg stepF d (t + 1) k ns2).map
          (fun r => (r.1, if (t : Int) % dv = 0 then statesOf ns2 :: r.2 else r.2))

/-- The same tick loop with the snapshot machinery erased: what the final
neurons are regardless of the debug setting. -/
def simLoopPlain (stepF : List Neuron → List Neuron) : Nat → List Neuron → List Neuron
  | 0, ns => ns
  | Nat.succ k, ns => simLoopPlain stepF k (stepF ns)

/-- `simulate_N(neurons, connections, N, debug_every)`, faithful to the
`debug_every` parameter: final states plus emitted snapshots. -/
def simulate_N_dbg (ns : List Neuron) (cs : List Edge) (N : Nat) (d : Option Int) :
    Option (List Int × List (List Int)) :=
  (simLoopDbg (fun x => steps x cs) d 1 N ns).map (fun r => (statesOf r.1, r.2))

/-- `simulate_fast(neurons, connections, N, debug_every)`, faithful to the
`debug_every` parameter: final states plus emitted snapshots. -/
def simulate_fast_dbg (ns : List Neuron) (cs : List Edge) (N : Nat) (d : Option Int) :
    Option (List Int × List (List Int)) :=
  (simLoopDbg (fun x => step_fast x (build_out_edges ns.length cs)) d 1 N ns).map
    (fun r => (statesOf r.1, r.2))

/-- A valid edge for neuron count `M`: both endpoints are 1-based ids in
`[1, M]` (the caller contract stated by the spec). -/
def validEdge (M : Nat) (e : Edge) : Prop :=
  1 ≤ e.1 ∧ e.1 ≤ (M : Int) ∧ 1 ≤ e.2.1 ∧ e.2.1 ≤ (M : Int)

instance (M : Nat) (e : Edge) : Decidable (validEdge M e) := by
  unfold validEdge; infer_instance

/-! ### Specification-side quantities

The following sums are the mathematical descriptions the spec gives for the
accumulators; the theorems below relate the source functions to them. -/

/-- Total weight an association list contributes to destination index `i`. -/
def weightTo (i : Nat) (l : List (Nat × ℚ)) : ℚ :=
  (l.map (fun vw => if vw.1 = i then vw.2 else 0)).sum

/-- Spec description of the baseline received signal at index `i`: the sum of
`w` over edges `(a, b, w)` with destination index `b - 1 = i` whose source
neuron is currently active. -/
def recvSpec (ns : List Neuron) (cs : List Edge) (i : Nat) : ℚ :=
  (cs.map (fun e =>
    if (ns.getD (idx e.1) default).state = 1 ∧ idx e.2.1 = i then e.2.2 else 0)).sum

/-- Sum of the weights of all edges from source index `u` to destination
index `i` (the aggregated weight the spec assigns to the pair `u → i`). -/
def pairWeight (u i : Nat) (cs : List Edge) : ℚ :=
  (cs.map (fun e => if idx e.1 = u ∧ idx e.2.1 = i then e.2.2 else 0)).sum

/-- Spec description of the fast received signal at index `i`: the sum over
active sources `u` of the weight `out_edges[u]` contributes to `i`. -/
def recvFastSpec (ns : List Neuron) (oe : List (List (Nat × ℚ))) (i : Nat) : ℚ :=
  ((List.range ns.length).map
    (fun u => if (ns.getD u default).state = 1 then weightTo i (oe.getD u []) else 0)).sum

/-- The immutable part of a neuron list: ids and thresholds. -/
def frameOf (ns : List Neuron) : List (Nat × ℚ) :=
  ns.map (fun n => (n.id, n.threshold))

/-! ### Model of the stdin parser (`_read_stdin_case` and its callers)

Standard input is modelled as the list of its lines (without newline
characters); Python `readline` at exhausted input returns the empty string.
The numeric conversions `int(...)` and `float(...)` are modelled on plain
decimal literals (optional sign, digits, optional fraction part), the forms
the case format uses; a string outside that form parses to `none`,
modelling the `ValueError` Python raises. -/

/-- Strip leading and trailing whitespace, as Python `str.strip()`. -/
def trimChars (cs : List Char) : List Char :=
  ((cs.dropWhile Char.isWhitespace).reverse.dropWhile Char.isWhitespace).reverse

/-- Helper for `tokens`: split on whitespace runs, with the current token
accumulated in reverse. -/
def tokensAux : List Char → List Char → List (List Char)
  | [], cur => if cur.isEmpty then [] else [cur.reverse]
  | c :: rest, cur =>
    if c.isWhitespace then
      if cur.isEmpty then tokensAux rest [] else cur.reverse :: tokensAux rest []
    else tokensAux rest (c :: cur)

/-- Whitespace tokenization, as Python `str.split()` with no arguments. -/
def tokens (cs : List Char) : List (List Char) := tokensAux cs []

/-- Decimal value of a digit list. -/
def digitsToNat (cs : List Char) : Nat :=
  cs.foldl (fun n c => n * 10 + (c.toNat - 48)) 0

/-- Parse a nonempty all-digit list. -/
def parseNatDigits (cs : List Char) : Option Nat :=
  if cs.isEmpty then none
  else if cs.all Char.isDigit then some (digitsToNat cs) else none

/-- Model of Python `int(...)` on an already-trimmed token. -/
def parseIntChars (cs : List Char) : Option Int :=
  match cs with
  | '-' :: rest => (parseNatDigits rest).map (fun n => -(n : Int))
  | '+' :: rest => (parseNatDigits rest).map (fun n => (n : Int))
  | _ => (parseNatDigits cs).map (fun n => (n : Int))

/-- Split at the first `'.'`, if any. -/
def splitDot : List Char → List Char × Option (List Char)
  | [] => ([], none)
  | c :: rest =>
    if c = '.' then ([], some rest)
    else
      let r := splitDot rest
      (c :: r.1, r.2)

/-- Model of Python `float(...)` on an unsigned already-trimmed token:
`digits`, `digits.digits`, `digits.` or `.digits`. -/
def parseFracChars (cs : List Char) : Option ℚ :=
  match splitDot cs with
  | (ip, none) => (parseNatDigits ip).map (fun n => (n : ℚ))
  | (ip, some fp) =>
    if ip.isEmpty then
      (parseNatDigits fp).map (fun n => (n : ℚ) / (10 : ℚ) ^ fp.length)
    else if fp.isEmpty then
      (parseNatDigits ip).map (fun n => (n : ℚ))
    else
      match parseNatDigits ip, parseNatDigits fp with
      | some a, some b => some ((a : ℚ) + (b : ℚ) / (10 : ℚ) ^ fp.length)
      | _, _ => none

/-- Model of Python `float(...)` on an already-trimmed token. -/
def parseFloatChars (cs : List Char) : Option ℚ :=
  match cs with
  | '-' :: rest => (parseFracChars rest).map (fun q => -q)
  | '+' :: rest => parseFracChars rest
  | _ => parseFracChars cs

/-- `int(s.strip())` on a whole line. -/
def parseIntS (s : String) : Option Int := parseIntChars (trimChars s.toList)

/-- `list(map(int, s.split()))`. -/
def parseIntsLine (s : String) : Option (List Int) :=
  (tokens s.toList).mapM parseIntChars

/-- `list(map(float, s.split()))`. -/
def parseFloatsLine (s : String) : Option (List ℚ) :=
  (tokens s.toList).mapM parseFloatChars

/-- Read one line from the buffer; Python `readline` yields `""` at EOF. -/
def nextLine : List String → String × List String
  | [] => ("", [])
  | l :: ls => (l, ls)

/-- One edge record line: `a, b, w = line.split()` (a `ValueError` unless
exactly three tokens) followed by `int(a)`, `int(b)`, `float(w)`. -/
def parseEdgeTokens : List (List Char) → Option Edge
  | [sa, sb, sw] =>
    match parseIntChars sa with
    | none => none
    | some a =>
      match parseIntChars sb with
      | none => none
      | some b =>
        match parseFloatChars sw with
        | none => none
        | some w => some (a, b, w)
  | _ => none

/-- The edge-reading loop of `_read_stdin_case` (q1.py lines 197-205): skip
blank lines, stop at a line `"E"` (or at EOF), unpack `a b w` from exactly
three tokens and convert them, collecting the edges. -/
def readEdges : List String → Option (List Edge × List String)
  | [] => some ([], [])
  | l :: ls =>
    let t := trimChars l.toList
    if t.isEmpty then readEdges ls
    else if t = ['E'] then some ([], ls)
    else
      match parseEdgeTokens (tokens t) with
      | some e => (readEdges ls).map (fun r => (e :: r.1, r.2))
      | none => none

/-- The source function `_read_stdin_case()`: parse one case from the line
buffer, or `none` for any of the exceptions the Python code can raise
(`ValueError` from a failed conversion or a failed 3-token unpack,
`IndexError` from `s[i]` / `X[i]` when fewer than `M` values were given). -/
def read_stdin_case (input : List String) : Option (List Neuron × List Edge × Int) :=
  let p1 := nextLine input
  match parseIntS p1.1 with
  | none => none
  | some Mi =>
    let M := Mi.toNat
    let p2 := nextLine p1.2
    match parseIntsLine p2.1 with
    | none => none
    | some s =>
      let p3 := nextLine p2.2
      match parseFloatsLine p3.1 with
      | none => none
      | some X =>
        let p4 := nextLine p3.2
        match parseIntS p4.1 with
        | none => none
        | some N =>
          match readEdges p4.2 with
          | none => none
          | some r =>
            if M ≤ s.length ∧ M ≤ X.length then
              some ((List.range M).map (fun i => ⟨i + 1, s.getD i 0, X.getD i 0⟩), r.1, N)
            else none

/-- `solve_stdin()`: parse a case and run the baseline simulator
(`debug_every=None`); a parse failure propagates and nothing is simulated. -/
def solve_stdin (input : List String) : Option (List Int) :=
  (read_stdin_case input).map (fun c => simulate_N c.1 c.2.1 c.2.2.toNat)

/-- `solve_stdin_fast()`: parse a case and run the fast simulator. -/
def solve_stdin_fast (input : List String) : Option (List Int) :=
  (read_stdin_case input).map (fun c => simulate_fast c.1 c.2.1 c.2.2.toNat)

/-- `verify_stdin()`: parse once, run both simulators on copies of the same
initial state, and report both outputs and the match flag. -/
def verify_stdin (input : List String) : Option (List Int × List Int × Bool) :=
  (read_stdin_case input).map (fun c =>
    (simulate_N c.1 c.2.1 c.2.2.toNat, simulate_fast c.1 c.2.1 c.2.2.toNat,
      decide (simulate_N c.1 c.2.1 c.2.2.toNat = simulate_fast c.1 c.2.1 c.2.2.toNat)))

/-! ### Checked-index variants

Python list indexing `xs[i]` raises `IndexError` outside the valid range.
The following variants perform every list access of `steps`, `step_fast`
and `build_out_edges` through a range check and return `none` on the error
branch; the safety theorem shows that branch unreachable for valid edges
(valid 1-based ids never reach Python's negative-index behaviour, so the
check `0 ≤ i < len` is the faithful model on the claimed precondition). -/

/-- The signal phase of `steps` with checked accesses `neurons[a-1]` and
`received[b-1]`: each index is tested for `0 ≤ i < len` before the access,
and the error branch is `none`. -/
def receivedBaselineChk (ns : List Neuron) : List Edge → List ℚ → Option (List ℚ)
  | [], acc => some acc
  | e :: rest, acc =>
    if 0 ≤ e.1 - 1 ∧ (e.1 - 1).toNat < ns.length then
      if (ns.getD (e.1 - 1).toNat default).state = 1 then
        if 0 ≤ e.2.1 - 1 ∧ (e.2.1 - 1).toNat < acc.length then
          receivedBaselineChk ns rest
            (acc.set (e.2.1 - 1).toNat (acc.getD (e.2.1 - 1).toNat 0 + e.2.2))
        else none
      else receivedBaselineChk ns rest acc
    else none

/-- `steps` with checked indexing (phases 2-4 only index `range(M)` into
lists of length `M`, which is always in range). -/
def stepsChk (ns : List Neuron) (cs : List Edge) : Option (List Neuron) :=
  (receivedBaselineChk ns cs (List.replicate ns.length 0)).map
    (fun received => commitStates ns (new_states ns received))

/-- The loop of `build_out_edges` with the access `out_edges[a-1]` checked. -/
def buildOutEdgesChk (M : Nat) : List Edge → List (List (Nat × ℚ)) → Option (List (List (Nat × ℚ)))
  | [], out => some out
  | e :: rest, out =>
    if 0 ≤ e.1 - 1 ∧ (e.1 - 1).toNat < out.length then
      buildOutEdgesChk M rest
        (out.set (e.1 - 1).toNat (addEdge (out.getD (e.1 - 1).toNat []) (idx e.2.1) e.2.2))
    else none

/-- `build_out_edges` with checked indexing. -/
def build_out_edgesChk (M : Nat) (cs : List Edge) : Option (List (List (Nat × ℚ))) :=
  buildOutEdgesChk M cs (List.replicate M [])

/-- The inner loop of `step_fast` with the access `received[v]` checked. -/
def scatterChk : List (Nat × ℚ) → List ℚ → Option (List ℚ)
  | [], acc => some acc
  | vw :: rest, acc =>
    if vw.1 < acc.length then
      scatterChk rest (acc.set vw.1 (acc.getD vw.1 0 + vw.2))
    else none

/-- The signal phase of `step_fast` with the accesses `out_edges[u]` and
`received[v]` checked (`u` itself comes from `enumerate(neurons)` and is
always a valid index into `neurons`). -/
def receivedFastChkAux (ns : List Neuron) (oe : List (List (Nat × ℚ))) :
    List Nat → List ℚ → Option (List ℚ)
  | [], acc => some acc
  | u :: us, acc =>
    if (ns.getD u default).state = 1 then
      if u < oe.length then
        match scatterChk (oe.getD u []) acc with
        | none => none
        | some acc2 => receivedFastChkAux ns oe us acc2
      else none
    else receivedFastChkAux ns oe us acc

/-- `step_fast` with checked indexing. -/
def step_fastChk (ns : List Neuron) (oe : List (List (Nat × ℚ))) : Option (List Neuron) :=
  (receivedFastChkAux ns oe (List.range ns.length) (List.replicate ns.length 0)).map
    (fun received => commitStates ns (new_states ns received))

/-- The demo network embedded in the source (q1.py lines 269-279). -/
def demoNeurons : List Neuron :=
  [⟨1, 1, 0.5⟩, ⟨2, 1, 0.1⟩, ⟨3, 1, 0.6⟩, ⟨4, 1, 0.5⟩, ⟨5, 0, 0.4⟩,
   ⟨6, 1, 0.8⟩, ⟨7, 1, 0.2⟩, ⟨8, 1, 0.2⟩, ⟨9, 0, 0.4⟩]

/-- The demo connection list embedded in the source (q1.py lines 282-296),
with a duplicated pair `(4, 3)`. -/
def demoConnections : List Edge :=
  [(4, 3, 0.8), (9, 6, 0.6), (8, 3, 0.4), (7, 9, 0.6), (4, 3, 1.0),
   (2, 6, 0.8), (1, 4, 0.8), (2, 1, 0.5), (4, 4, 0.1), (5, 5, 0.8),
   (3, 7, 0.5), (9, 8, 0.3), (8, 2, 0.6)]


/-! ## Helper lemmas on lists -/

theorem getD_set_self {α : Type} (l : List α) (i : Nat) (x d : α) (h : i < l.length) :
    (l.set i x).getD i d = x := by
  simp [List.getD_eq_getElem?_getD, List.getElem?_set_eq_of_lt, h]

theorem getD_set_ne {α : Type} (l : List α) (i j : Nat) (x d : α) (h : i ≠ j) :
    (l.set i x).getD j d = l.getD j d := by
  simp [List.getD_eq_getElem?_getD, List.getElem?_set_ne h]

theorem set_oob {α : Type} (l : List α) (i : Nat) (x : α) (h : l.length ≤ i) :
    l.set i x = l := by
  induction l generalizing i with
  | nil => rfl
  | cons a t ih =>
    cases i with
    | zero => simp at h
    | succ j => simp only [List.set]; rw [ih j (by simpa using h)]

theorem getD_replicate_self {α : Type} (n i : Nat) (x : α) :
    (List.replicate n x).getD i x = x := by
  induction n generalizing i with
  | zero => cases i <;> rfl
  | succ m ih =>
    cases i with
    | zero => rfl
    | succ j => exact ih j

theorem getD_oob {α : Type} (l : List α) (i : Nat) (d : α) (h : l.length ≤ i) :
    l.getD i d = d := by
  simp [List.getD_eq_getElem?_getD, List.getElem?_eq_none h]

theorem rangeMap_getD {α : Type} (n i : Nat) (f : Nat → α) (d : α) (h : i < n) :
    ((List.range n).map f).getD i d = f i := by
  simp [List.getD_eq_getElem?_getD, List.getElem?_map, List.getElem?_range h]

theorem map_eq_rangeMap {α β : Type} [Inhabited α] (f : α → β) (l : List α) :
    l.map f = (List.range l.length).map (fun i => f (l.getD i default)) := by
  induction l with
  | nil => rfl
  | cons a t ih =>
    simp only [List.map, List.length_cons, List.range_succ_eq_map, List.map_map]
    refine congrArg₂ List.cons rfl ?_
    rw [ih]
    refine List.map_congr_left ?_
    intro i hi
    rfl

theorem list_ext_getD {α : Type} (d : α) (l1 l2 : List α) (hlen : l1.length = l2.length)
    (h : ∀ i, i < l1.length → l1.getD i d = l2.getD i d) : l1 = l2 := by
  induction l1 generalizing l2 with
  | nil => cases l2 with
    | nil => rfl
    | cons b t => simp at hlen
  | cons a t1 ih =>
    cases l2 with
    | nil => simp at hlen
    | cons b t2 =>
      have h0 := h 0 (by simp)
      simp at h0
      have := ih t2 (by simpa using hlen)
        (fun i hi => by simpa using h (i + 1) (by simpa using Nat.succ_lt_succ hi))
      simp [h0, this]

theorem sum_map_add {α : Type} (l : List α) (f g : α → ℚ) :
    (l.map (fun x => f x + g x)).sum = (l.map f).sum + (l.map g).sum := by
  induction l with
  | nil => simp
  | cons a t ih => simp [ih]; ring

theorem sum_map_zero {α : Type} (l : List α) :
    (l.map (fun _ => (0 : ℚ))).sum = 0 := by
  induction l with
  | nil => rfl
  | cons a t ih => simp [ih]

theorem sum_range_single (n t : Nat) (w : ℚ) :
    ((List.range n).map (fun u => if u = t then w else 0)).sum
      = if t < n then w else 0 := by
  induction n with
  | zero => simp
  | succ m ih =>
    rw [List.range_succ, List.map_append, List.sum_append, ih]
    by_cases hmt : m = t
    · subst hmt
      simp [Nat.lt_irrefl, Nat.lt_succ_self]
    · have : t < m ↔ t < m + 1 := by
        constructor
        · exact fun h => Nat.lt_succ_of_lt h
        · intro h
          rcases Nat.lt_succ_iff_lt_or_eq.mp h with h' | h'
          · exact h'
          · exact absurd h'.symm hmt
      simp [hmt, ← this]

/-! ## Characterizing the received-signal accumulators -/

theorem weightTo_nil (i : Nat) : weightTo i [] = 0 := rfl

theorem weightTo_cons (i : Nat) (p : Nat × ℚ) (t : List (Nat × ℚ)) :
    weightTo i (p :: t) = (if p.1 = i then p.2 else 0) + weightTo i t := by
  simp [weightTo]

theorem scatter_length (l : List (Nat × ℚ)) (acc : List ℚ) :
    (l.foldl (fun acc vw => acc.set vw.1 (acc.getD vw.1 0 + vw.2)) acc).length
      = acc.length := by
  induction l generalizing acc with
  | nil => rfl
  | cons p t ih => rw [List.foldl_cons, ih, List.length_set]

theorem scatter_getD (l : List (Nat × ℚ)) (acc : List ℚ) (i : Nat) (h : i < acc.length) :
    (l.foldl (fun acc vw => acc.set vw.1 (acc.getD vw.1 0 + vw.2)) acc).getD i 0
      = acc.getD i 0 + weightTo i l := by
  induction l generalizing acc with
  | nil => simp [weightTo_nil]
  | cons p t ih =>
    rw [List.foldl_cons, weightTo_cons,
      ih _ (by rw [List.length_set]; exact h)]
    by_cases hpi : p.1 = i
    · rw [hpi, getD_set_self _ _ _ _ h]
      have hc : (if i = i then p.2 else 0) = p.2 := if_pos rfl
      rw [hc]
      ring
    · rw [getD_set_ne _ _ _ _ _ hpi, if_neg hpi]
      ring

theorem recvSpec_cons (ns : List Neuron) (e : Edge) (t : List Edge) (i : Nat) :
    recvSpec ns (e :: t) i
      = (if (ns.getD (idx e.1) default).state = 1 ∧ idx e.2.1 = i then e.2.2 else 0)
        + recvSpec ns t i := by
  simp [recvSpec]

theorem baselineFold_length (ns : List Neuron) (cs : List Edge) (acc : List ℚ) :
    (cs.foldl
      (fun received e =>
        if (ns.getD (idx e.1) default).state = 1 then
          received.set (idx e.2.1) (received.getD (idx e.2.1) 0 + e.2.2)
        else received) acc).length = acc.length := by
  induction cs generalizing acc with
  | nil => rfl
  | cons e t ih =>
    rw [List.foldl_cons, ih]
    by_cases h : (ns.getD (idx e.1) default).state = 1
    · rw [if_pos h, List.length_set]
    · rw [if_neg h]

theorem baselineFold_getD (ns : List Neuron) (cs : List Edge) (acc : List ℚ) (i : Nat)
    (h : i < acc.length) :
    (cs.foldl
      (fun received e =>
        if (ns.getD (idx e.1) default).state = 1 then
          received.set (idx e.2.1) (received.getD (idx e.2.1) 0 + e.2.2)
        else received) acc).getD i 0 = acc.getD i 0 + recvSpec ns cs i := by
  induction cs generalizing acc with
  | nil => simp [recvSpec]
  | cons e t ih =>
    rw [List.foldl_cons, recvSpec_cons]
    by_cases ha : (ns.getD (idx e.1) default).state = 1
    · rw [if_pos ha, ih _ (by rw [List.length_set]; exact h)]
      by_cases hd : idx e.2.1 = i
      · have hc : (ns.getD (idx e.1) default).state = 1 ∧ idx e.2.1 = i := ⟨ha, hd⟩
        rw [if_pos hc, hd, getD_set_self _ _ _ _ h]
        ring
      · rw [getD_set_ne _ _ _ _ _ hd, if_neg (fun hc => hd hc.2)]
        ring
    · rw [if_neg ha, ih _ h, if_neg (fun hc => ha hc.1)]
      ring

theorem receivedBaseline_length (ns : List Neuron) (cs : List Edge) :
    (receivedBaseline ns cs).length = ns.length := by
  unfold receivedBaseline
  rw [baselineFold_length, List.length_replicate]

theorem receivedBaseline_getD (ns : List Neuron) (cs : List Edge) (i : Nat)
    (h : i < ns.length) :
    (receivedBaseline ns cs).getD i 0 = recvSpec ns cs i := by
  unfold receivedBaseline
  rw [baselineFold_getD ns cs _ i (by rw [List.length_replicate]; exact h),
    getD_replicate_self, zero_add]

theorem fastFold_length (ns : List Neuron) (oe : List (List (Nat × ℚ)))
    (us : List Nat) (acc : List ℚ) :
    (us.foldl
      (fun received u =>
        if (ns.getD u default).state = 1 then
          (oe.getD u []).foldl
            (fun acc vw => acc.set vw.1 (acc.getD vw.1 0 + vw.2)) received
        else received) acc).length = acc.length := by
  induction us generalizing acc with
  | nil => rfl
  | cons u t ih =>
    rw [List.foldl_cons, ih]
    by_cases h : (ns.getD u default).state = 1
    · rw [if_pos h, scatter_length]
    · rw [if_neg h]

theorem fastFold_getD (ns : List Neuron) (oe : List (List (Nat × ℚ)))
    (us : List Nat) (acc : List ℚ) (i : Nat) (h : i < acc.length) :
    (us.foldl
      (fun received u =>
        if (ns.getD u default).state = 1 then
          (oe.getD u []).foldl
            (fun acc vw => acc.set vw.1 (acc.getD vw.1 0 + vw.2)) received
        else received) acc).getD i 0
      = acc.getD i 0
        + (us.map
            (fun u => if (ns.getD u default).state = 1 then weightTo i (oe.getD u []) else 0)).sum := by
  induction us generalizing acc with
  | nil => simp
  | cons u t ih =>
    rw [List.foldl_cons, List.map_cons, List.sum_cons]
    by_cases ha : (ns.getD u default).state = 1
    · rw [if_pos ha,
        ih _ (by rw [scatter_length]; exact h),
        scatter_getD _ _ _ h, if_pos ha]
      ring
    · rw [if_neg ha, ih _ h, if_neg ha]
      ring

theorem receivedFast_length (ns : List Neuron) (oe : List (List (Nat × ℚ))) :
    (receivedFast ns oe).length = ns.length := by
  unfold receivedFast
  rw [fastFold_length, List.length_replicate]

theorem receivedFast_getD (ns : List Neuron) (oe : List (List (Nat × ℚ))) (i : Nat)
    (h : i < ns.length) :
    (receivedFast ns oe).getD i 0 = recvFastSpec ns oe i := by
  unfold receivedFast recvFastSpec
  rw [fastFold_getD ns oe _ _ i (by rw [List.length_replicate]; exact h),
    getD_replicate_self, zero_add]

/-! ## Characterizing the aggregated adjacency -/

theorem weightTo_addEdge (l : List (Nat × ℚ)) (v : Nat) (w : ℚ) (i : Nat) :
    weightTo i (addEdge l v w) = weightTo i l + (if v = i then w else 0) := by
  induction l with
  | nil =>
    rw [show addEdge [] v w = [(v, w)] from rfl, weightTo_cons, weightTo_nil]
    ring
  | cons p t ih =>
    by_cases hp : p.1 = v
    · rw [show addEdge (p :: t) v w = (p.1, p.2 + w) :: t from by simp [addEdge, hp]]
      rw [weightTo_cons, weightTo_cons]
      by_cases hv : v = i
      · have hpi : p.1 = i := hp.trans hv
        simp only [if_pos hpi, if_pos hv]
        ring
      · have hpi : ¬ p.1 = i := fun hc => hv (hp ▸ hc)
        simp only [if_neg hpi, if_neg hv]
        ring
    · rw [show addEdge (p :: t) v w = p :: addEdge t v w from by simp [addEdge, hp]]
      rw [weightTo_cons, weightTo_cons, ih]
      ring

theorem buildFold_length (cs : List Edge) (out : List (List (Nat × ℚ))) :
    (cs.foldl
      (fun out e => out.set (idx e.1) (addEdge (out.getD (idx e.1) []) (idx e.2.1) e.2.2))
      out).length = out.length := by
  induction cs generalizing out with
  | nil => rfl
  | cons e t ih => rw [List.foldl_cons, ih, List.length_set]

theorem pairWeight_cons (u i : Nat) (e : Edge) (t : List Edge) :
    pairWeight u i (e :: t)
      = (if idx e.1 = u ∧ idx e.2.1 = i then e.2.2 else 0) + pairWeight u i t := by
  simp [pairWeight]

theorem buildFold_weightTo (cs : List Edge) (out : List (List (Nat × ℚ))) (u i : Nat)
    (hu : u < out.length) :
    weightTo i ((cs.foldl
      (fun out e => out.set (idx e.1) (addEdge (out.getD (idx e.1) []) (idx e.2.1) e.2.2))
      out).getD u [])
      = weightTo i (out.getD u []) + pairWeight u i cs := by
  induction cs generalizing out with
  | nil => simp [pairWeight]
  | cons e t ih =>
    rw [List.foldl_cons, pairWeight_cons,
      ih _ (by rw [List.length_set]; exact hu)]
    by_cases hs : idx e.1 = u
    · rw [hs, getD_set_self _ _ _ _ hu, weightTo_addEdge]
      by_cases hd : idx e.2.1 = i
      · rw [if_pos hd, if_pos (⟨rfl, hd⟩ : u = u ∧ idx e.2.1 = i)]
        ring
      · rw [if_neg hd, if_neg (fun hc : u = u ∧ idx e.2.1 = i => hd hc.2)]
        ring
    · rw [getD_set_ne _ _ _ _ _ hs, if_neg (fun hc : idx e.1 = u ∧ idx e.2.1 = i => hs hc.1)]
      ring

theorem build_out_edges_length (M : Nat) (cs : List Edge) :
    (build_out_edges M cs).length = M := by
  unfold build_out_edges
  rw [buildFold_length, List.length_replicate]

theorem build_out_edges_weightTo (M : Nat) (cs : List Edge) (u i : Nat) (hu : u < M) :
    weightTo i ((build_out_edges M cs).getD u []) = pairWeight u i cs := by
  unfold build_out_edges
  rw [buildFold_weightTo _ _ _ _ (by rw [List.length_replicate]; exact hu),
    getD_replicate_self, weightTo_nil, zero_add]

/-! ## Equivalence of the two received-signal computations -/

theorem idx_lt_of_valid (M : Nat) (a : Int) (h1 : 1 ≤ a) (h2 : a ≤ (M : Int)) :
    idx a < M := by
  unfold idx
  omega

theorem recvSpec_eq_sum_pairWeight (ns : List Neuron) (i : Nat) :
    ∀ cs : List Edge, (∀ e ∈ cs, validEdge ns.length e) →
      recvSpec ns cs i
        = ((List.range ns.length).map
            (fun u => if (ns.getD u default).state = 1 then pairWeight u i cs else 0)).sum := by
  intro cs
  induction cs with
  | nil =>
    intro _
    simp [recvSpec, pairWeight, sum_map_zero]
  | cons e t ih =>
    intro hv
    have hv' : ∀ x ∈ t, validEdge ns.length x :=
      fun x hx => hv x (List.mem_cons_of_mem _ hx)
    have hvE := hv e (List.mem_cons_self _ _)
    have hpt : ∀ u ∈ List.range ns.length,
        (fun u => if (ns.getD u default).state = 1 then pairWeight u i (e :: t) else 0) u
          = (fun u =>
              (if u = idx e.1 then
                (if (ns.getD (idx e.1) default).state = 1 ∧ idx e.2.1 = i then e.2.2 else 0)
               else 0)
              + (if (ns.getD u default).state = 1 then pairWeight u i t else 0)) u := by
      intro u _
      simp only
      rw [pairWeight_cons]
      by_cases hu : u = idx e.1
      · subst hu
        rw [if_pos rfl]
        by_cases ha : (ns.getD (idx e.1) default).state = 1
        · rw [if_pos ha, if_pos ha]
          by_cases hd : idx e.2.1 = i
          · rw [if_pos (⟨rfl, hd⟩ : idx e.1 = idx e.1 ∧ idx e.2.1 = i), if_pos (⟨ha, hd⟩)]
          · rw [if_neg (fun hc : idx e.1 = idx e.1 ∧ idx e.2.1 = i => hd hc.2),
              if_neg (fun hc : _ ∧ idx e.2.1 = i => hd hc.2)]
        · rw [if_neg ha, if_neg ha, if_neg (fun hc : _ ∧ idx e.2.1 = i => ha hc.1)]
          ring
      · rw [if_neg hu,
          if_neg (fun hc : idx e.1 = u ∧ idx e.2.1 = i => hu hc.1.symm), zero_add, zero_add]
    rw [recvSpec_cons, ih hv', List.map_congr_left hpt, sum_map_add,
      sum_range_single ns.length (idx e.1) _,
      if_pos (idx_lt_of_valid ns.length e.1 hvE.1 hvE.2.1)]

theorem receivedBaseline_eq_receivedFast (ns : List Neuron) (cs : List Edge)
    (hv : ∀ e ∈ cs, validEdge ns.length e) :
    receivedBaseline ns cs = receivedFast ns (build_out_edges ns.length cs) := by
  apply list_ext_getD 0
  · rw [receivedBaseline_length, receivedFast_length]
  · intro i hi
    rw [receivedBaseline_length] at hi
    rw [receivedBaseline_getD _ _ _ hi, receivedFast_getD _ _ _ hi,
      recvSpec_eq_sum_pairWeight ns i cs hv]
    unfold recvFastSpec
    refine congrArg List.sum (List.map_congr_left ?_)
    intro u hu
    rw [List.mem_range] at hu
    rw [build_out_edges_weightTo ns.length cs u i hu]

theorem steps_eq_step_fast (ns : List Neuron) (cs : List Edge)
    (hv : ∀ e ∈ cs, validEdge ns.length e) :
    steps ns cs = step_fast ns (build_out_edges ns.length cs) := by
  unfold steps step_fast
  rw [receivedBaseline_eq_receivedFast ns cs hv]

theorem commitStates_length (ns : List Neuron) (st : List Int) :
    (commitStates ns st).length = ns.length := by
  simp [commitStates]

theorem steps_length (ns : List Neuron) (cs : List Edge) :
    (steps ns cs).length = ns.length :=
  commitStates_length _ _

theorem step_fast_length (ns : List Neuron) (oe : List (List (Nat × ℚ))) :
    (step_fast ns oe).length = ns.length :=
  commitStates_length _ _

theorem simNTicks_eq_simFastTicks (cs : List Edge) (N : Nat) :
    ∀ ns : List Neuron, (∀ e ∈ cs, validEdge ns.length e) →
      simNTicks cs N ns = simFastTicks (build_out_edges ns.length cs) N ns := by
  induction N with
  | zero => intro ns _; rfl
  | succ k ih =>
    intro ns hv
    show simNTicks cs k (steps ns cs)
        = simFastTicks (build_out_edges ns.length cs) k
            (step_fast ns (build_out_edges ns.length cs))
    rw [steps_eq_step_fast ns cs hv]
    have hlen : (step_fast ns (build_out_edges ns.length cs)).length = ns.length :=
      step_fast_length _ _
    have := ih (step_fast ns (build_out_edges ns.length cs)) (by rw [hlen]; exact hv)
    rw [this, hlen]

/-! ## Key lists of the aggregated adjacency -/

theorem addEdge_keys (l : List (Nat × ℚ)) (v : Nat) (w : ℚ) :
    (addEdge l v w).map Prod.fst
      = if v ∈ l.map Prod.fst then l.map Prod.fst else l.map Prod.fst ++ [v] := by
  induction l with
  | nil => simp [addEdge]
  | cons p t ih =>
    by_cases hp : p.1 = v
    · rw [show addEdge (p :: t) v w = (p.1, p.2 + w) :: t from by simp [addEdge, hp]]
      rw [List.map_cons, List.map_cons,
        if_pos (by rw [hp]; exact List.mem_cons_self _ _)]
    · rw [show addEdge (p :: t) v w = p :: addEdge t v w from by simp [addEdge, hp],
        List.map_cons, List.map_cons, ih]
      by_cases hm : v ∈ t.map Prod.fst
      · rw [if_pos hm, if_pos (List.mem_cons_of_mem _ hm)]
      · rw [if_neg hm,
          if_neg (by
            intro hc
            rcases List.mem_cons.mp hc with h | h
            · exact hp h.symm
            · exact hm h),
          List.cons_append]

theorem addEdge_keys_nodup (l : List (Nat × ℚ)) (v : Nat) (w : ℚ)
    (h : (l.map Prod.fst).Nodup) : ((addEdge l v w).map Prod.fst).Nodup := by
  rw [addEdge_keys]
  by_cases hm : v ∈ l.map Prod.fst
  · rw [if_pos hm]; exact h
  · rw [if_neg hm, List.nodup_append]
    refine ⟨h, List.nodup_singleton v, ?_⟩
    intro a ha hav
    rw [List.mem_singleton] at hav
    exact hm (hav ▸ ha)

theorem addEdge_keys_lt (l : List (Nat × ℚ)) (v : Nat) (w : ℚ) (M : Nat)
    (hl : ∀ k ∈ l.map Prod.fst, k < M) (hv : v < M) :
    ∀ k ∈ (addEdge l v w).map Prod.fst, k < M := by
  rw [addEdge_keys]
  by_cases hm : v ∈ l.map Prod.fst
  · rw [if_pos hm]; exact hl
  · rw [if_neg hm]
    intro k hk
    rcases List.mem_append.mp hk with h | h
    · exact hl k h
    · rw [List.mem_singleton] at h
      exact h ▸ hv

theorem buildFold_keys_nodup (cs : List Edge) :
    ∀ out : List (List (Nat × ℚ)),
      (∀ u, ((out.getD u []).map Prod.fst).Nodup) →
      ∀ u,
        (((cs.foldl
          (fun out e => out.set (idx e.1) (addEdge (out.getD (idx e.1) []) (idx e.2.1) e.2.2))
          out).getD u []).map Prod.fst).Nodup := by
  induction cs with
  | nil => intro out h u; exact h u
  | cons e t ih =>
    intro out h u
    rw [List.foldl_cons]
    apply ih
    intro u'
    by_cases hlt : idx e.1 < out.length
    · by_cases hu : idx e.1 = u'
      · rw [← hu, getD_set_self _ _ _ _ hlt]
        exact addEdge_keys_nodup _ _ _ (h _)
      · rw [getD_set_ne _ _ _ _ _ hu]
        exact h u'
    · rw [set_oob _ _ _ (Nat.le_of_not_lt hlt)]
      exact h u'

theorem buildFold_keys_lt (M : Nat) (cs : List Edge) (hv : ∀ e ∈ cs, validEdge M e) :
    ∀ out : List (List (Nat × ℚ)),
      (∀ u, ∀ k ∈ (out.getD u []).map Prod.fst, k < M) →
      ∀ u, ∀ k ∈
        ((cs.foldl
          (fun out e => out.set (idx e.1) (addEdge (out.getD (idx e.1) []) (idx e.2.1) e.2.2))
          out).getD u []).map Prod.fst, k < M := by
  induction cs with
  | nil => intro out h u; exact h u
  | cons e t ih =>
    intro out h u
    rw [List.foldl_cons]
    apply ih (fun x hx => hv x (List.mem_cons_of_mem _ hx))
    intro u'
    by_cases hlt : idx e.1 < out.length
    · by_cases hu : idx e.1 = u'
      · rw [← hu, getD_set_self _ _ _ _ hlt]
        exact addEdge_keys_lt _ _ _ _ (h _)
          (idx_lt_of_valid M e.2.1 (hv e (List.mem_cons_self _ _)).2.2.1
            (hv e (List.mem_cons_self _ _)).2.2.2)
      · rw [getD_set_ne _ _ _ _ _ hu]
        exact h u'
    · rw [set_oob _ _ _ (Nat.le_of_not_lt hlt)]
      exact h u'

theorem build_out_edges_keys_nodup (M : Nat) (cs : List Edge) (u : Nat) :
    (((build_out_edges M cs).getD u []).map Prod.fst).Nodup := by
  unfold build_out_edges
  apply buildFold_keys_nodup
  intro u'
  rw [getD_replicate_self]
  exact List.nodup_nil

theorem build_out_edges_keys_lt (M : Nat) (cs : List Edge) (hv : ∀ e ∈ cs, validEdge M e)
    (u : Nat) : ∀ k ∈ ((build_out_edges M cs).getD u []).map Prod.fst, k < M := by
  unfold build_out_edges
  apply buildFold_keys_lt M cs hv
  intro u' k hk
  rw [getD_replicate_self] at hk
  cases hk

theorem weightTo_eq_zero_of_not_mem (l : List (Nat × ℚ)) (v : Nat)
    (h : v ∉ l.map Prod.fst) : weightTo v l = 0 := by
  induction l with
  | nil => rfl
  | cons p t ih =>
    rw [weightTo_cons, ih (fun hc => h (List.mem_cons_of_mem _ hc)),
      if_neg (fun hc => h (by rw [List.map_cons, ← hc]; exact List.mem_cons_self _ _)),
      add_zero]

theorem weightTo_of_mem (l : List (Nat × ℚ)) (v : Nat) (w : ℚ)
    (hnd : (l.map Prod.fst).Nodup) (hm : (v, w) ∈ l) : weightTo v l = w := by
  induction l with
  | nil => cases hm
  | cons p t ih =>
    rw [List.map_cons] at hnd
    have hnd' := List.nodup_cons.mp hnd
    rcases List.mem_cons.mp hm with h | h
    · rw [← h] at hnd'
      rw [← h, weightTo_cons, if_pos rfl,
        weightTo_eq_zero_of_not_mem t v hnd'.1, add_zero]
    · have hv : p.1 ≠ v := by
        intro hc
        exact hnd'.1 (hc ▸ List.mem_map.mpr ⟨(v, w), h, rfl⟩)
      rw [weightTo_cons, if_neg hv, ih hnd'.2 h, zero_add]

/-! ## Inactive sources contribute nothing -/

theorem baselineFold_filter (ns : List Neuron) :
    ∀ (cs : List Edge) (acc : List ℚ),
      ((cs.filter (fun e => (ns.getD (idx e.1) default).state != 0)).foldl
        (fun received e =>
          if (ns.getD (idx e.1) default).state = 1 then
            received.set (idx e.2.1) (received.getD (idx e.2.1) 0 + e.2.2)
          else received) acc)
        = cs.foldl
          (fun received e =>
            if (ns.getD (idx e.1) default).state = 1 then
              received.set (idx e.2.1) (received.getD (idx e.2.1) 0 + e.2.2)
            else received) acc := by
  intro cs
  induction cs with
  | nil => intro acc; rfl
  | cons e t ih =>
    intro acc
    rw [List.filter_cons]
    by_cases hs : (ns.getD (idx e.1) default).state = 0
    · have hb : ((ns.getD (idx e.1) default).state != 0) = false := by
        rw [hs]; rfl
      rw [hb, if_neg (by simp), List.foldl_cons,
        if_neg (by rw [hs]; decide), ih]
    · have hb : ((ns.getD (idx e.1) default).state != 0) = true := by
        rw [bne_iff_ne]; exact hs
      rw [hb, if_pos rfl, List.foldl_cons, List.foldl_cons, ih]

theorem receivedBaseline_filter (ns : List Neuron) (cs : List Edge) :
    receivedBaseline ns (cs.filter (fun e => (ns.getD (idx e.1) default).state != 0))
      = receivedBaseline ns cs := by
  unfold receivedBaseline
  rw [baselineFold_filter]

theorem fastFold_congr (ns : List Neuron) (oe1 oe2 : List (List (Nat × ℚ))) :
    ∀ (us : List Nat),
      (∀ u ∈ us, (ns.getD u default).state = 1 → oe1.getD u [] = oe2.getD u []) →
      ∀ acc : List ℚ,
        us.foldl
          (fun received u =>
            if (ns.getD u default).state = 1 then
              (oe1.getD u []).foldl
                (fun acc vw => acc.set vw.1 (acc.getD vw.1 0 + vw.2)) received
            else received) acc
        = us.foldl
          (fun received u =>
            if (ns.getD u default).state = 1 then
              (oe2.getD u []).foldl
                (fun acc vw => acc.set vw.1 (acc.getD vw.1 0 + vw.2)) received
            else received) acc := by
  intro us
  induction us with
  | nil => intro _ acc; rfl
  | cons u t ih =>
    intro h acc
    rw [List.foldl_cons, List.foldl_cons,
      ih (fun x hx => h x (List.mem_cons_of_mem _ hx))]
    by_cases ha : (ns.getD u default).state = 1
    · rw [if_pos ha, if_pos ha, h u (List.mem_cons_self _ _) ha]
    · rw [if_neg ha, if_neg ha]

theorem receivedFast_congr (ns : List Neuron) (oe1 oe2 : List (List (Nat × ℚ)))
    (h : ∀ u, u < ns.length → (ns.getD u default).state = 1 →
      oe1.getD u [] = oe2.getD u []) :
    receivedFast ns oe1 = receivedFast ns oe2 := by
  unfold receivedFast
  rw [fastFold_congr ns oe1 oe2 _
    (fun u hu => h u (List.mem_range.mp hu))]

/-! ## The debug snapshot setting does not influence the result -/

theorem simLoopPlain_steps (cs : List Edge) :
    ∀ (k : Nat) (ns : List Neuron),
      simLoopPlain (fun x => steps x cs) k ns = simNTicks cs k ns := by
  intro k
  induction k with
  | zero => intro ns; rfl
  | succ m ih => intro ns; exact ih (steps ns cs)

theorem simLoopPlain_step_fast (oe : List (List (Nat × ℚ))) :
    ∀ (k : Nat) (ns : List Neuron),
      simLoopPlain (fun x => step_fast x oe) k ns = simFastTicks oe k ns := by
  intro k
  induction k with
  | zero => intro ns; rfl
  | succ m ih => intro ns; exact ih (step_fast ns oe)

theorem simLoopDbg_fst_eq (stepF : List Neuron → List Neuron) (d : Option Int)
    (hd : d ≠ some 0) :
    ∀ (k t : Nat) (ns : List Neuron),
      (simLoopDbg stepF d t k ns).map Prod.fst = some (simLoopPlain stepF k ns) := by
  intro k
  induction k with
  | zero => intro t ns; rfl
  | succ m ih =>
    intro t ns
    cases d with
    | none => exact ih (t + 1) (stepF ns)
    | some dv =>
      have hdv : dv ≠ 0 := fun hc => hd (by rw [hc])
      show ((if dv = 0 then none else
          (simLoopDbg stepF (some dv) (t + 1) m (stepF ns)).map
            (fun r => (r.1, if (t : Int) % dv = 0 then statesOf (stepF ns) :: r.2 else r.2))).map
          Prod.fst)
        = some (simLoopPlain stepF (m + 1) ns)
      rw [if_neg hdv]
      have hih := ih (t + 1) (stepF ns)
      cases hX : simLoopDbg stepF (some dv) (t + 1) m (stepF ns) with
      | none => rw [hX] at hih; simp at hih
      | some r =>
        rw [hX] at hih
        simp only [Option.map_some'] at hih
        have hr : r.1 = simLoopPlain stepF m (stepF ns) := by
          exact Option.some.inj hih
        show some (r.1) = some (simLoopPlain stepF (m + 1) ns)
        rw [hr]
        rfl

theorem simulate_N_dbg_fst (ns : List Neuron) (cs : List Edge) (N : Nat) (d : Option Int)
    (hd : d ≠ some 0) :
    (simulate_N_dbg ns cs N d).map Prod.fst = some (simulate_N ns cs N) := by
  unfold simulate_N_dbg simulate_N
  have h := simLoopDbg_fst_eq (fun x => steps x cs) d hd N 1 ns
  cases hX : simLoopDbg (fun x => steps x cs) d 1 N ns with
  | none => rw [hX] at h; simp at h
  | some r =>
    rw [hX] at h
    simp only [Option.map_some'] at h
    have hr : r.1 = simLoopPlain (fun x => steps x cs) N ns := Option.some.inj h
    show some (statesOf r.1) = some (statesOf (simNTicks cs N ns))
    rw [hr, simLoopPlain_steps]

theorem simulate_fast_dbg_fst (ns : List Neuron) (cs : List Edge) (N : Nat) (d : Option Int)
    (hd : d ≠ some 0) :
    (simulate_fast_dbg ns cs N d).map Prod.fst = some (simulate_fast ns cs N) := by
  unfold simulate_fast_dbg simulate_fast
  have h := simLoopDbg_fst_eq (fun x => step_fast x (build_out_edges ns.length cs)) d hd N 1 ns
  cases hX : simLoopDbg (fun x => step_fast x (build_out_edges ns.length cs)) d 1 N ns with
  | none => rw [hX] at h; simp at h
  | some r =>
    rw [hX] at h
    simp only [Option.map_some'] at h
    have hr : r.1 = simLoopPlain (fun x => step_fast x (build_out_edges ns.length cs)) N ns :=
      Option.some.inj h
    show some (statesOf r.1) = some (statesOf (simFastTicks (build_out_edges ns.length cs) N ns))
    rw [hr, simLoopPlain_step_fast]

/-! ## Binary states after a tick, immutable ids and thresholds -/

theorem statesOf_commitStates (ns : List Neuron) (st : List Int) :
    statesOf (commitStates ns st) = (List.range ns.length).map (fun i => st.getD i 0) := by
  unfold statesOf commitStates
  rw [List.map_map]
  rfl

theorem steps_states_binary (ns : List Neuron) (cs : List Edge) :
    ∀ s ∈ statesOf (steps ns cs), s = 0 ∨ s = 1 := by
  intro s hs
  unfold steps at hs
  rw [statesOf_commitStates] at hs
  rcases List.mem_map.mp hs with ⟨i, hi, hEq⟩
  rw [List.mem_range] at hi
  rw [← hEq]
  unfold new_states
  rw [rangeMap_getD _ _ _ _ hi]
  by_cases h : (receivedBaseline ns cs).getD i 0 ≥ (ns.getD i default).threshold
  · rw [if_pos h]; right; rfl
  · rw [if_neg h]; left; rfl

theorem step_fast_states_binary (ns : List Neuron) (oe : List (List (Nat × ℚ))) :
    ∀ s ∈ statesOf (step_fast ns oe), s = 0 ∨ s = 1 := by
  intro s hs
  unfold step_fast at hs
  rw [statesOf_commitStates] at hs
  rcases List.mem_map.mp hs with ⟨i, hi, hEq⟩
  rw [List.mem_range] at hi
  rw [← hEq]
  unfold new_states
  rw [rangeMap_getD _ _ _ _ hi]
  by_cases h : (receivedFast ns oe).getD i 0 ≥ (ns.getD i default).threshold
  · rw [if_pos h]; right; rfl
  · rw [if_neg h]; left; rfl

theorem simNTicks_states_binary (cs : List Edge) :
    ∀ (k : Nat) (ns : List Neuron),
      ∀ s ∈ statesOf (simNTicks cs (k + 1) ns), s = 0 ∨ s = 1 := by
  intro k
  induction k with
  | zero => intro ns; exact steps_states_binary ns cs
  | succ m ih => intro ns; exact ih (steps ns cs)

theorem simFastTicks_states_binary (oe : List (List (Nat × ℚ))) :
    ∀ (k : Nat) (ns : List Neuron),
      ∀ s ∈ statesOf (simFastTicks oe (k + 1) ns), s = 0 ∨ s = 1 := by
  intro k
  induction k with
  | zero => intro ns; exact step_fast_states_binary ns oe
  | succ m ih => intro ns; exact ih (step_fast ns oe)

theorem frameOf_commitStates (ns : List Neuron) (st : List Int) :
    frameOf (commitStates ns st) = frameOf ns := by
  unfold frameOf commitStates
  rw [List.map_map, map_eq_rangeMap (fun n => (n.id, n.threshold)) ns]
  rfl

theorem frameOf_steps (ns : List Neuron) (cs : List Edge) :
    frameOf (steps ns cs) = frameOf ns :=
  frameOf_commitStates _ _

theorem frameOf_step_fast (ns : List Neuron) (oe : List (List (Nat × ℚ))) :
    frameOf (step_fast ns oe) = frameOf ns :=
  frameOf_commitStates _ _

theorem frameOf_simNTicks (cs : List Edge) :
    ∀ (N : Nat) (ns : List Neuron), frameOf (simNTicks cs N ns) = frameOf ns := by
  intro N
  induction N with
  | zero => intro ns; rfl
  | succ m ih =>
    intro ns
    show frameOf (simNTicks cs m (steps ns cs)) = frameOf ns
    rw [ih (steps ns cs), frameOf_steps]

theorem frameOf_simFastTicks (oe : List (List (Nat × ℚ))) :
    ∀ (N : Nat) (ns : List Neuron), frameOf (simFastTicks oe N ns) = frameOf ns := by
  intro N
  induction N with
  | zero => intro ns; rfl
  | succ m ih =>
    intro ns
    show frameOf (simFastTicks oe m (step_fast ns oe)) = frameOf ns
    rw [ih (step_fast ns oe), frameOf_step_fast]

/-! ## The checked variants succeed on valid edges -/

theorem receivedBaselineChk_eq (ns : List Neuron) :
    ∀ (cs : List Edge), (∀ e ∈ cs, validEdge ns.length e) →
    ∀ acc : List ℚ, acc.length = ns.length →
      receivedBaselineChk ns cs acc
        = some (cs.foldl
            (fun received e =>
              if (ns.getD (idx e.1) default).state = 1 then
                received.set (idx e.2.1) (received.getD (idx e.2.1) 0 + e.2.2)
              else received) acc) := by
  intro cs
  induction cs with
  | nil => intro _ acc _; rfl
  | cons e t ih =>
    intro hv acc hlen
    have hv' : ∀ x ∈ t, validEdge ns.length x :=
      fun x hx => hv x (List.mem_cons_of_mem _ hx)
    have hvE := hv e (List.mem_cons_self _ _)
    have ha1 : 0 ≤ e.1 - 1 := by have := hvE.1; omega
    have ha2 : (e.1 - 1).toNat < ns.length := by have := hvE.2.1; have := hvE.1; omega
    have hb1 : 0 ≤ e.2.1 - 1 := by have := hvE.2.2.1; omega
    have hb2 : (e.2.1 - 1).toNat < acc.length := by
      rw [hlen]; have := hvE.2.2.2; have := hvE.2.2.1; omega
    simp only [receivedBaselineChk]
    rw [if_pos ⟨ha1, ha2⟩, List.foldl_cons]
    by_cases hs : (ns.getD (idx e.1) default).state = 1
    · rw [if_pos (show (ns.getD (e.1 - 1).toNat default).state = 1 from hs), if_pos hs,
        if_pos ⟨hb1, hb2⟩]
      exact ih hv' _ (by rw [List.length_set]; exact hlen)
    · rw [if_neg (show ¬ (ns.getD (e.1 - 1).toNat default).state = 1 from hs), if_neg hs]
      exact ih hv' acc hlen

theorem stepsChk_eq (ns : List Neuron) (cs : List Edge)
    (hv : ∀ e ∈ cs, validEdge ns.length e) :
    stepsChk ns cs = some (steps ns cs) := by
  unfold stepsChk steps receivedBaseline
  rw [receivedBaselineChk_eq ns cs hv _ (List.length_replicate _ _)]
  rfl

theorem buildOutEdgesChk_eq (M : Nat) :
    ∀ (cs : List Edge), (∀ e ∈ cs, validEdge M e) →
    ∀ out : List (List (Nat × ℚ)), out.length = M →
      buildOutEdgesChk M cs out
        = some (cs.foldl
            (fun out e =>
              out.set (idx e.1) (addEdge (out.getD (idx e.1) []) (idx e.2.1) e.2.2)) out) := by
  intro cs
  induction cs with
  | nil => intro _ out _; rfl
  | cons e t ih =>
    intro hv out hlen
    have hv' : ∀ x ∈ t, validEdge M x :=
      fun x hx => hv x (List.mem_cons_of_mem _ hx)
    have hvE := hv e (List.mem_cons_self _ _)
    have h1 : 0 ≤ e.1 - 1 := by have := hvE.1; omega
    have h2 : (e.1 - 1).toNat < out.length := by
      rw [hlen]; have := hvE.2.1; have := hvE.1; omega
    simp only [buildOutEdgesChk]
    rw [if_pos ⟨h1, h2⟩, List.foldl_cons]
    exact ih hv' _ (by rw [List.length_set]; exact hlen)

theorem build_out_edgesChk_eq (M : Nat) (cs : List Edge) (hv : ∀ e ∈ cs, validEdge M e) :
    build_out_edgesChk M cs = some (build_out_edges M cs) := by
  unfold build_out_edgesChk build_out_edges
  exact buildOutEdgesChk_eq M cs hv _ (List.length_replicate _ _)

theorem scatterChk_eq :
    ∀ (l : List (Nat × ℚ)) (acc : List ℚ), (∀ k ∈ l.map Prod.fst, k < acc.length) →
      scatterChk l acc
        = some (l.foldl (fun acc vw => acc.set vw.1 (acc.getD vw.1 0 + vw.2)) acc) := by
  intro l
  induction l with
  | nil => intro acc _; rfl
  | cons vw t ih =>
    intro acc hk
    simp only [scatterChk]
    rw [if_pos (hk vw.1 (by rw [List.map_cons]; exact List.mem_cons_self _ _)),
      List.foldl_cons]
    exact ih _ (fun k hkk => by
      rw [List.length_set]
      exact hk k (by rw [List.map_cons]; exact List.mem_cons_of_mem _ hkk))

theorem receivedFastChkAux_eq (ns : List Neuron) (oe : List (List (Nat × ℚ)))
    (hoe : oe.length = ns.length)
    (hkeys : ∀ u, ∀ k ∈ (oe.getD u []).map Prod.fst, k < ns.length) :
    ∀ (us : List Nat), (∀ u ∈ us, u < ns.length) →
    ∀ acc : List ℚ, acc.length = ns.length →
      receivedFastChkAux ns oe us acc
        = some (us.foldl
            (fun received u =>
              if (ns.getD u default).state = 1 then
                (oe.getD u []).foldl
                  (fun acc vw => acc.set vw.1 (acc.getD vw.1 0 + vw.2)) received
              else received) acc) := by
  intro us
  induction us with
  | nil => intro _ acc _; rfl
  | cons u t ih =>
    intro hus acc hlen
    have hu : u < ns.length := hus u (List.mem_cons_self _ _)
    have hus' : ∀ x ∈ t, x < ns.length := fun x hx => hus x (List.mem_cons_of_mem _ hx)
    simp only [receivedFastChkAux]
    rw [List.foldl_cons]
    by_cases ha : (ns.getD u default).state = 1
    · rw [if_pos ha, if_pos (by rw [hoe]; exact hu), if_pos ha,
        scatterChk_eq _ _ (fun k hkk => by rw [hlen]; exact hkeys u k hkk)]
      exact ih hus' _ (by rw [scatter_length]; exact hlen)
    · rw [if_neg ha, if_neg ha]
      exact ih hus' acc hlen

theorem step_fastChk_eq (ns : List Neuron) (cs : List Edge)
    (hv : ∀ e ∈ cs, validEdge ns.length e) :
    step_fastChk ns (build_out_edges ns.length cs)
      = some (step_fast ns (build_out_edges ns.length cs)) := by
  unfold step_fastChk step_fast receivedFast
  rw [receivedFastChkAux_eq ns _ (build_out_edges_length _ _)
    (build_out_edges_keys_lt _ _ hv) _ (fun u hu => List.mem_range.mp hu) _
    (List.length_replicate _ _)]
  rfl

/-! ## Parse failures are fatal and propagate -/

theorem read_stdin_case_badM (l1 : String) (r : List String)
    (h : parseIntS l1 = none) : read_stdin_case (l1 :: r) = none := by
  simp [read_stdin_case, nextLine, h]

theorem read_stdin_case_badStates (l1 l2 : String) (r : List String)
    (h : parseIntsLine l2 = none) : read_stdin_case (l1 :: l2 :: r) = none := by
  cases hM : parseIntS l1 with
  | none => simp [read_stdin_case, nextLine, hM]
  | some Mi => simp [read_stdin_case, nextLine, hM, h]

theorem read_stdin_case_badThresholds (l1 l2 l3 : String) (r : List String)
    (h : parseFloatsLine l3 = none) : read_stdin_case (l1 :: l2 :: l3 :: r) = none := by
  cases hM : parseIntS l1 with
  | none => simp [read_stdin_case, nextLine, hM]
  | some Mi =>
    cases hS : parseIntsLine l2 with
    | none => simp [read_stdin_case, nextLine, hM, hS]
    | some s => simp [read_stdin_case, nextLine, hM, hS, h]

theorem read_stdin_case_badN (l1 l2 l3 l4 : String) (r : List String)
    (h : parseIntS l4 = none) : read_stdin_case (l1 :: l2 :: l3 :: l4 :: r) = none := by
  cases hM : parseIntS l1 with
  | none => simp [read_stdin_case, nextLine, hM]
  | some Mi =>
    cases hS : parseIntsLine l2 with
    | none => simp [read_stdin_case, nextLine, hM, hS]
    | some s =>
      cases hX : parseFloatsLine l3 with
      | none => simp [read_stdin_case, nextLine, hM, hS, hX]
      | some X => simp [read_stdin_case, nextLine, hM, hS, hX, h]

theorem read_stdin_case_badEdges (l1 l2 l3 l4 : String) (r : List String)
    (h : readEdges r = none) : read_stdin_case (l1 :: l2 :: l3 :: l4 :: r) = none := by
  cases hM : parseIntS l1 with
  | none => simp [read_stdin_case, nextLine, hM]
  | some Mi =>
    cases hS : parseIntsLine l2 with
    | none => simp [read_stdin_case, nextLine, hM, hS]
    | some s =>
      cases hX : parseFloatsLine l3 with
      | none => simp [read_stdin_case, nextLine, hM, hS, hX]
      | some X =>
        cases hN : parseIntS l4 with
        | none => simp [read_stdin_case, nextLine, hM, hS, hX, hN]
        | some N => simp [read_stdin_case, nextLine, hM, hS, hX, hN, h]

theorem read_stdin_case_tooFewStates (l1 l2 l3 l4 : String) (r : List String)
    (Mi : Int) (s : List Int) (hM : parseIntS l1 = some Mi)
    (hs : parseIntsLine l2 = some s) (hlt : s.length < Mi.toNat) :
    read_stdin_case (l1 :: l2 :: l3 :: l4 :: r) = none := by
  cases hX : parseFloatsLine l3 with
  | none => simp [read_stdin_case, nextLine, hM, hs, hX]
  | some X =>
    cases hN : parseIntS l4 with
    | none => simp [read_stdin_case, nextLine, hM, hs, hX, hN]
    | some N =>
      cases hE : readEdges r with
      | none => simp [read_stdin_case, nextLine, hM, hs, hX, hN, hE]
      | some rr =>
        simp only [read_stdin_case, nextLine, hM, hs, hX, hN, hE]
        rw [if_neg (by omega)]

theorem read_stdin_case_tooFewThresholds (l1 l2 l3 l4 : String) (r : List String)
    (Mi : Int) (X : List ℚ) (hM : parseIntS l1 = some Mi)
    (hX : parseFloatsLine l3 = some X) (hlt : X.length < Mi.toNat) :
    read_stdin_case (l1 :: l2 :: l3 :: l4 :: r) = none := by
  cases hS : parseIntsLine l2 with
  | none => simp [read_stdin_case, nextLine, hM, hS]
  | some s =>
    cases hN : parseIntS l4 with
    | none => simp [read_stdin_case, nextLine, hM, hS, hX, hN]
    | some N =>
      cases hE : readEdges r with
      | none => simp [read_stdin_case, nextLine, hM, hS, hX, hN, hE]
      | some rr =>
        simp only [read_stdin_case, nextLine, hM, hS, hX, hN, hE]
        rw [if_neg (by omega)]

theorem parseEdgeTokens_badCount (ts : List (List Char)) (h : ts.length ≠ 3) :
    parseEdgeTokens ts = none := by
  rcases ts with _ | ⟨sa, _ | ⟨sb, _ | ⟨sw, _ | ⟨x4, rest⟩⟩⟩⟩
  · rfl
  · rfl
  · rfl
  · exact absurd rfl h
  · rfl

theorem parseEdgeTokens_badNumeric (sa sb sw : List Char)
    (hbad : parseIntChars sa = none ∨ parseIntChars sb = none ∨ parseFloatChars sw = none) :
    parseEdgeTokens [sa, sb, sw] = none := by
  rcases hbad with h | h | h
  · simp [parseEdgeTokens, h]
  · cases hA : parseIntChars sa with
    | none => simp [parseEdgeTokens, hA]
    | some a => simp [parseEdgeTokens, hA, h]
  · cases hA : parseIntChars sa with
    | none => simp [parseEdgeTokens, hA]
    | some a =>
      cases hB : parseIntChars sb with
      | none => simp [parseEdgeTokens, hA, hB]
      | some b => simp [parseEdgeTokens, hA, hB, h]

theorem readEdges_badLine (l : String) (ls : List String)
    (h1 : (trimChars l.toList).isEmpty = false)
    (h2 : ¬ trimChars l.toList = ['E'])
    (h3 : parseEdgeTokens (tokens (trimChars l.toList)) = none) :
    readEdges (l :: ls) = none := by
  simp only [readEdges]
  rw [if_neg (by rw [h1]; exact Bool.false_ne_true), if_neg h2, h3]

theorem read_stdin_case_none_propagates (input : List String)
    (h : read_stdin_case input = none) :
    solve_stdin input = none ∧ solve_stdin_fast input = none ∧ verify_stdin input = none := by
  unfold solve_stdin solve_stdin_fast verify_stdin
  rw [h]
  exact ⟨rfl, rfl, rfl⟩

/-! ## Claim theorems -/

/-- C1: for every valid case (neuron count `M = ns.length`, 0/1 initial
states, thresholds, edges with endpoints in `[1, M]`, tick count `N ≥ 0`),
the baseline simulator `simulate_N` and the fast simulator `simulate_fast`
produce identical final state vectors, by exact integer equality. -/
theorem C1_simulate_equivalence (ns : List Neuron) (cs : List Edge) (N : Nat)
    (hv : ∀ e ∈ cs, validEdge ns.length e)
    (hs : ∀ n ∈ ns, n.state = 0 ∨ n.state = 1) :
    simulate_N ns cs N = simulate_fast ns cs N := by
  unfold simulate_N simulate_fast
  rw [simNTicks_eq_simFastTicks cs N ns hv]

/-- Witness for C1 at the source's own nine-neuron, thirteen-edge demo case,
run for 100 ticks. -/
theorem C1_simulate_equivalence_witness :
    (∀ e ∈ demoConnections, validEdge demoNeurons.length e)
  ∧ (∀ n ∈ demoNeurons, n.state = 0 ∨ n.state = 1)
  ∧ simulate_N demoNeurons demoConnections 100
      = simulate_fast demoNeurons demoConnections 100 :=
  ⟨by decide, by decide,
    C1_simulate_equivalence demoNeurons demoConnections 100 (by decide) (by decide)⟩

/-- C2: one baseline tick computes, for each neuron `i < M`, the received
signal `recvSpec ns cs i` (the sum of `w` over edges `(a, b, w)` with
`b - 1 = i` whose source is active in the pre-tick states), and commits
state 1 exactly when that signal is `≥` the neuron's threshold (non-strict),
leaving id and threshold as they were; all decisions read pre-tick states. -/
theorem C2_steps_spec (ns : List Neuron) (cs : List Edge)
    (hv : ∀ e ∈ cs, validEdge ns.length e) :
    (steps ns cs).length = ns.length ∧
    ∀ i, i < ns.length →
      (receivedBaseline ns cs).getD i 0 = recvSpec ns cs i ∧
      (steps ns cs).getD i default
        = { ns.getD i default with
            state := if recvSpec ns cs i ≥ (ns.getD i default).threshold then 1 else 0 } := by
  refine ⟨steps_length ns cs, fun i hi => ⟨receivedBaseline_getD ns cs i hi, ?_⟩⟩
  unfold steps commitStates
  rw [rangeMap_getD _ _ _ _ hi]
  have hst : (new_states ns (receivedBaseline ns cs)).getD i 0
      = if recvSpec ns cs i ≥ (ns.getD i default).threshold then 1 else 0 := by
    unfold new_states
    rw [rangeMap_getD _ _ _ _ hi, receivedBaseline_getD ns cs i hi]
  rw [hst]

/-- Witness for C2 at the source's demo case, projected to neuron index 2
(the destination of the duplicated edge pair). -/
theorem C2_steps_spec_witness :
    (∀ e ∈ demoConnections, validEdge demoNeurons.length e)
  ∧ (2 < demoNeurons.length)
  ∧ ((receivedBaseline demoNeurons demoConnections).getD 2 0
      = recvSpec demoNeurons demoConnections 2 ∧
     (steps demoNeurons demoConnections).getD 2 default
       = { demoNeurons.getD 2 default with
           state := if recvSpec demoNeurons demoConnections 2
               ≥ (demoNeurons.getD 2 default).threshold then 1 else 0 }) :=
  ⟨by decide, by decide,
    (C2_steps_spec demoNeurons demoConnections (by decide)).2 2 (by decide)⟩

/-- C3: for endpoints in `[1, M]`, each destination appears at most once in
`build_out_edges M cs` under any source `u < M`, and its weight is the sum
of the weights of all input edges from `u` to that destination. -/
theorem C3_build_out_edges_invariant (M : Nat) (cs : List Edge)
    (hv : ∀ e ∈ cs, validEdge M e) :
    ∀ u, u < M →
      (((build_out_edges M cs).getD u []).map Prod.fst).Nodup ∧
      ∀ vw ∈ (build_out_edges M cs).getD u [], vw.2 = pairWeight u vw.1 cs := by
  intro u hu
  refine ⟨build_out_edges_keys_nodup M cs u, fun vw hm => ?_⟩
  rw [← build_out_edges_weightTo M cs u vw.1 hu]
  exact (weightTo_of_mem _ vw.1 vw.2 (build_out_edges_keys_nodup M cs u) hm).symm

/-- Witness for C3 at the source's demo edge list (which duplicates the
pair `(4, 3)`), at source index 3. -/
theorem C3_build_out_edges_invariant_witness :
    (∀ e ∈ demoConnections, validEdge 9 e)
  ∧ (3 < 9)
  ∧ ((((build_out_edges 9 demoConnections).getD 3 []).map Prod.fst).Nodup ∧
     ∀ vw ∈ (build_out_edges 9 demoConnections).getD 3 [],
       vw.2 = pairWeight 3 vw.1 demoConnections) :=
  ⟨by decide, by decide,
    C3_build_out_edges_invariant 9 demoConnections (by decide) 3 (by decide)⟩

/-- C4: a tick is unchanged when the edges of currently-inactive sources are
removed — for the baseline tick, dropping all edges whose source state is 0
from the connection list; for the fast tick, emptying the out-edge lists of
all sources with state 0. -/
theorem C4_inactive_sources_skip (ns : List Neuron) (cs : List Edge)
    (oe : List (List (Nat × ℚ))) (hv : ∀ e ∈ cs, validEdge ns.length e) :
    steps ns (cs.filter (fun e => (ns.getD (idx e.1) default).state != 0)) = steps ns cs ∧
    step_fast ns
      ((List.range ns.length).map
        (fun u => if (ns.getD u default).state = 0 then [] else oe.getD u []))
      = step_fast ns oe := by
  constructor
  · unfold steps
    rw [receivedBaseline_filter]
  · unfold step_fast
    have hcg : receivedFast ns
        ((List.range ns.length).map
          (fun u => if (ns.getD u default).state = 0 then [] else oe.getD u []))
        = receivedFast ns oe := by
      apply receivedFast_congr
      intro u hu ha
      rw [rangeMap_getD _ _ _ _ hu, if_neg (by rw [ha]; decide)]
    rw [hcg]

/-- Witness for C4 at the source's demo case (neurons 5 and 9 are inactive
there) with the demo adjacency. -/
theorem C4_inactive_sources_skip_witness :
    (∀ e ∈ demoConnections, validEdge demoNeurons.length e)
  ∧ (steps demoNeurons
      (demoConnections.filter
        (fun e => (demoNeurons.getD (idx e.1) default).state != 0))
      = steps demoNeurons demoConnections ∧
     step_fast demoNeurons
      ((List.range demoNeurons.length).map
        (fun u => if (demoNeurons.getD u default).state = 0 then []
          else (build_out_edges 9 demoConnections).getD u []))
      = step_fast demoNeurons (build_out_edges 9 demoConnections)) :=
  ⟨by decide,
    C4_inactive_sources_skip demoNeurons demoConnections
      (build_out_edges 9 demoConnections) (by decide)⟩

/-- C5: with `N = 0` no tick runs: both simulators return exactly the list of
initial states, for every debug setting as well. -/
theorem C5_zero_ticks (ns : List Neuron) (cs : List Edge) :
    simulate_N ns cs 0 = statesOf ns ∧ simulate_fast ns cs 0 = statesOf ns ∧
    ∀ d, simulate_N_dbg ns cs 0 d = some (statesOf ns, []) ∧
         simulate_fast_dbg ns cs 0 d = some (statesOf ns, []) :=
  ⟨rfl, rfl, fun _ => ⟨rfl, rfl⟩⟩

/-- C6: every tick and every full run leaves the id and threshold of every
neuron unchanged: the projection `frameOf` is invariant under `steps`,
`step_fast` and the tick loops of `simulate_N` / `simulate_fast`. -/
theorem C6_frame_immutable (ns : List Neuron) (cs : List Edge)
    (oe : List (List (Nat × ℚ))) (N : Nat) :
    frameOf (steps ns cs) = frameOf ns ∧
    frameOf (step_fast ns oe) = frameOf ns ∧
    frameOf (simNTicks cs N ns) = frameOf ns ∧
    frameOf (simFastTicks oe N ns) = frameOf ns :=
  ⟨frameOf_steps ns cs, frameOf_step_fast ns oe, frameOf_simNTicks cs N ns,
    frameOf_simFastTicks oe N ns⟩

/-- C7 counterexample: `_read_stdin_case` accepts an input whose edge section
is never terminated by an `"E"` line (it just stops at end of input), and an
input whose states line has more tokens than `M` (the extra token is
ignored); in both situations the claimed fatal parse error does not occur
and `solve_stdin` runs the simulation. -/
theorem C7_counterexample :
    (read_stdin_case ["1", "0", "0.5", "0"]).isSome = true ∧
    (read_stdin_case ["1", "0 1", "0.5", "0", "E"]).isSome = true ∧
    (solve_stdin ["1", "0", "0.5", "0"]).isSome = true := by
  decide

/-- C7 (amended): the malformed cases the code does treat as fatal — a failed
integer or float conversion on any line, an edge line whose token count is
not 3, a failed numeric conversion inside an edge line, and fewer than `M`
states or thresholds — make `_read_stdin_case` fail, and that failure
propagates to `solve_stdin`, `solve_stdin_fast` and `verify_stdin` with no
simulation attempted.  (Extra tokens on a line and a missing `"E"`
terminator are tolerated, per the counterexample.) -/
theorem C7_parse_failures_fatal :
    (∀ input, read_stdin_case input = none →
      solve_stdin input = none ∧ solve_stdin_fast input = none ∧ verify_stdin input = none)
  ∧ (∀ l1 r, parseIntS l1 = none → read_stdin_case (l1 :: r) = none)
  ∧ (∀ l1 l2 r, parseIntsLine l2 = none → read_stdin_case (l1 :: l2 :: r) = none)
  ∧ (∀ l1 l2 l3 r, parseFloatsLine l3 = none →
      read_stdin_case (l1 :: l2 :: l3 :: r) = none)
  ∧ (∀ l1 l2 l3 l4 r, parseIntS l4 = none →
      read_stdin_case (l1 :: l2 :: l3 :: l4 :: r) = none)
  ∧ (∀ l1 l2 l3 l4 r, readEdges r = none →
      read_stdin_case (l1 :: l2 :: l3 :: l4 :: r) = none)
  ∧ (∀ ts : List (List Char), ts.length ≠ 3 → parseEdgeTokens ts = none)
  ∧ (∀ sa sb sw,
      (parseIntChars sa = none ∨ parseIntChars sb = none ∨ parseFloatChars sw = none) →
      parseEdgeTokens [sa, sb, sw] = none)
  ∧ (∀ l ls, (trimChars l.toList).isEmpty = false → ¬ trimChars l.toList = ['E'] →
      parseEdgeTokens (tokens (trimChars l.toList)) = none → readEdges (l :: ls) = none)
  ∧ (∀ l1 l2 l3 l4 r Mi s, parseIntS l1 = some Mi → parseIntsLine l2 = some s →
      s.length < Mi.toNat → read_stdin_case (l1 :: l2 :: l3 :: l4 :: r) = none)
  ∧ (∀ l1 l2 l3 l4 r Mi X, parseIntS l1 = some Mi → parseFloatsLine l3 = some X →
      X.length < Mi.toNat → read_stdin_case (l1 :: l2 :: l3 :: l4 :: r) = none) :=
  ⟨read_stdin_case_none_propagates, read_stdin_case_badM, read_stdin_case_badStates,
    read_stdin_case_badThresholds, read_stdin_case_badN, read_stdin_case_badEdges,
    parseEdgeTokens_badCount, parseEdgeTokens_badNumeric, readEdges_badLine,
    read_stdin_case_tooFewStates, read_stdin_case_tooFewThresholds⟩

/-- Witness for C7 (amended), instantiating every conjunct at a concrete
malformed input. -/
theorem C7_parse_failures_fatal_witness :
    (read_stdin_case ["x"] = none ∧
      (solve_stdin ["x"] = none ∧ solve_stdin_fast ["x"] = none ∧ verify_stdin ["x"] = none))
  ∧ (parseIntS "x" = none ∧ read_stdin_case ["x", "0"] = none)
  ∧ (parseIntsLine "a" = none ∧ read_stdin_case ["1", "a"] = none)
  ∧ (parseFloatsLine "z" = none ∧ read_stdin_case ["1", "0", "z"] = none)
  ∧ (parseIntS "n" = none ∧ read_stdin_case ["1", "0", "", "n"] = none)
  ∧ (readEdges ["1 1"] = none ∧ read_stdin_case ["1", "0", "", "0", "1 1"] = none)
  ∧ (([['a']] : List (List Char)).length ≠ 3 ∧ parseEdgeTokens [['a']] = none)
  ∧ ((parseIntChars ['a'] = none ∨ parseIntChars ['1'] = none ∨
        parseFloatChars ['1'] = none) ∧
      parseEdgeTokens [['a'], ['1'], ['1']] = none)
  ∧ ((trimChars "1 2".toList).isEmpty = false ∧ ¬ trimChars "1 2".toList = ['E'] ∧
      parseEdgeTokens (tokens (trimChars "1 2".toList)) = none ∧
      readEdges ["1 2"] = none)
  ∧ (parseIntS "1" = some 1 ∧ parseIntsLine "" = some [] ∧
      ([] : List Int).length < (1 : Int).toNat ∧
      read_stdin_case ["1", "", "", "0"] = none)
  ∧ (parseIntS "1" = some 1 ∧ parseFloatsLine "" = some [] ∧
      ([] : List ℚ).length < (1 : Int).toNat ∧
      read_stdin_case ["1", "0", "", "0"] = none) :=
  ⟨⟨by decide, C7_parse_failures_fatal.1 ["x"] (by decide)⟩,
   ⟨by decide, C7_parse_failures_fatal.2.1 "x" ["0"] (by decide)⟩,
   ⟨by decide, C7_parse_failures_fatal.2.2.1 "1" "a" [] (by decide)⟩,
   ⟨by decide, C7_parse_failures_fatal.2.2.2.1 "1" "0" "z" [] (by decide)⟩,
   ⟨by decide, C7_parse_failures_fatal.2.2.2.2.1 "1" "0" "" "n" [] (by decide)⟩,
   ⟨by decide, C7_parse_failures_fatal.2.2.2.2.2.1 "1" "0" "" "0" ["1 1"] (by decide)⟩,
   ⟨by decide, C7_parse_failures_fatal.2.2.2.2.2.2.1 [['a']] (by decide)⟩,
   ⟨by decide, C7_parse_failures_fatal.2.2.2.2.2.2.2.1 ['a'] ['1'] ['1'] (by decide)⟩,
   ⟨by decide, by decide, by decide,
    C7_parse_failures_fatal.2.2.2.2.2.2.2.2.1 "1 2" [] (by decide) (by decide) (by decide)⟩,
   ⟨by decide, by decide, by decide,
    C7_parse_failures_fatal.2.2.2.2.2.2.2.2.2.1 "1" "" "" "0" [] 1 [] (by decide) (by decide)
      (by decide)⟩,
   ⟨by decide, by decide, by decide,
    C7_parse_failures_fatal.2.2.2.2.2.2.2.2.2.2 "1" "0" "" "0" [] 1 [] (by decide) (by decide)
      (by decide)⟩⟩

/-- C8 counterexample: with the snapshot setting `debug_every = 0`, tick 1
evaluates `1 % 0` and raises `ZeroDivisionError`, so the run does not return
the final vector that the `debug_every = None` run returns — the claim fails
for that pair of setting values, for both simulators. -/
theorem C8_counterexample :
    ¬ ((simulate_N_dbg [⟨1, 0, 0⟩] [] 1 none).map Prod.fst
        = (simulate_N_dbg [⟨1, 0, 0⟩] [] 1 (some 0)).map Prod.fst) ∧
    ¬ ((simulate_fast_dbg [⟨1, 0, 0⟩] [] 1 none).map Prod.fst
        = (simulate_fast_dbg [⟨1, 0, 0⟩] [] 1 (some 0)).map Prod.fst) := by
  decide

/-- C8 (amended): for any two values of `debug_every` other than `some 0`
(`None`, or any nonzero period, negative included), `simulate_N` and
`simulate_fast` return the same final state vector, which is also the
vector of the snapshot-free run. -/
theorem C8_snapshots_no_influence (ns : List Neuron) (cs : List Edge) (N : Nat)
    (d1 d2 : Option Int) (h1 : d1 ≠ some 0) (h2 : d2 ≠ some 0) :
    (simulate_N_dbg ns cs N d1).map Prod.fst = (simulate_N_dbg ns cs N d2).map Prod.fst ∧
    (simulate_fast_dbg ns cs N d1).map Prod.fst
      = (simulate_fast_dbg ns cs N d2).map Prod.fst ∧
    (simulate_N_dbg ns cs N d1).map Prod.fst = some (simulate_N ns cs N) ∧
    (simulate_fast_dbg ns cs N d1).map Prod.fst = some (simulate_fast ns cs N) := by
  refine ⟨?_, ?_, simulate_N_dbg_fst ns cs N d1 h1, simulate_fast_dbg_fst ns cs N d1 h1⟩
  · rw [simulate_N_dbg_fst ns cs N d1 h1, simulate_N_dbg_fst ns cs N d2 h2]
  · rw [simulate_fast_dbg_fst ns cs N d1 h1, simulate_fast_dbg_fst ns cs N d2 h2]

/-- Witness for C8 (amended) at the demo case, comparing `None` against a
period of 7. -/
theorem C8_snapshots_no_influence_witness :
    ((none : Option Int) ≠ some 0) ∧ ((some 7 : Option Int) ≠ some 0) ∧
    ((simulate_N_dbg demoNeurons demoConnections 20 none).map Prod.fst
      = (simulate_N_dbg demoNeurons demoConnections 20 (some 7)).map Prod.fst ∧
     (simulate_fast_dbg demoNeurons demoConnections 20 none).map Prod.fst
      = (simulate_fast_dbg demoNeurons demoConnections 20 (some 7)).map Prod.fst ∧
     (simulate_N_dbg demoNeurons demoConnections 20 none).map Prod.fst
      = some (simulate_N demoNeurons demoConnections 20) ∧
     (simulate_fast_dbg demoNeurons demoConnections 20 none).map Prod.fst
      = some (simulate_fast demoNeurons demoConnections 20)) :=
  ⟨by decide, by decide,
    C8_snapshots_no_influence demoNeurons demoConnections 20 none (some 7)
      (by decide) (by decide)⟩

/-- C9: after one tick of either stepper every committed state is exactly 0
or 1, whatever integers the input states were; hence every run of at least
one tick returns a 0/1 vector. -/
theorem C9_states_binary (ns : List Neuron) (cs : List Edge)
    (oe : List (List (Nat × ℚ))) :
    (∀ s ∈ statesOf (steps ns cs), s = 0 ∨ s = 1) ∧
    (∀ s ∈ statesOf (step_fast ns oe), s = 0 ∨ s = 1) ∧
    (∀ N, 1 ≤ N → ∀ s ∈ simulate_N ns cs N, s = 0 ∨ s = 1) ∧
    (∀ N, 1 ≤ N → ∀ s ∈ simulate_fast ns cs N, s = 0 ∨ s = 1) := by
  refine ⟨steps_states_binary ns cs, step_fast_states_binary ns oe, ?_, ?_⟩
  · intro N hN s hs
    cases N with
    | zero => exact absurd hN (by decide)
    | succ k => exact simNTicks_states_binary cs k ns s hs
  · intro N hN s hs
    cases N with
    | zero => exact absurd hN (by decide)
    | succ k => exact simFastTicks_states_binary (build_out_edges ns.length cs) k ns s hs

/-- Witness for C9 on a neuron whose starting state is the out-of-range
integer 5: the tick still commits a 0/1 state. -/
theorem C9_states_binary_witness :
    ((1 : Int) ∈ statesOf (steps [⟨1, 5, 0⟩] [])) ∧
    ((1 : Int) = 0 ∨ (1 : Int) = 1) ∧
    (1 ≤ 2) ∧
    (∀ s ∈ simulate_N [⟨1, 5, 0⟩] [] 2, s = 0 ∨ s = 1) :=
  ⟨by decide, (C9_states_binary [⟨1, 5, 0⟩] [] []).1 1 (by decide), by decide,
    (C9_states_binary [⟨1, 5, 0⟩] [] []).2.2.1 2 (by decide)⟩

/-- C10: when every edge endpoint lies in `[1, M]` with `M` the neuron
count, the bounds-checked versions of `steps`, `build_out_edges` and
`step_fast` — which return `none` whenever any list access would be out of
range — succeed and return exactly the unchecked results: the error branch
is unreachable. -/
theorem C10_no_out_of_range (ns : List Neuron) (cs : List Edge)
    (hv : ∀ e ∈ cs, validEdge ns.length e) :
    stepsChk ns cs = some (steps ns cs) ∧
    build_out_edgesChk ns.length cs = some (build_out_edges ns.length cs) ∧
    step_fastChk ns (build_out_edges ns.length cs)
      = some (step_fast ns (build_out_edges ns.length cs)) :=
  ⟨stepsChk_eq ns cs hv, build_out_edgesChk_eq ns.length cs hv, step_fastChk_eq ns cs hv⟩

/-- Witness for C10 at the source's demo case. -/
theorem C10_no_out_of_range_witness :
    (∀ e ∈ demoConnections, validEdge demoNeurons.length e) ∧
    (stepsChk demoNeurons demoConnections = some (steps demoNeurons demoConnections) ∧
     build_out_edgesChk demoNeurons.length demoConnections
       = some (build_out_edges demoNeurons.length demoConnections) ∧
     step_fastChk demoNeurons (build_out_edges demoNeurons.length demoConnections)
       = some (step_fast demoNeurons (build_out_edges demoNeurons.length demoConnections))) :=
  ⟨by decide, C10_no_out_of_range demoNeurons demoConnections (by decide)⟩
